import Mathlib

/-!
Verification of the silv radar-volume converter against its specification.

The development shallowly embeds the Rust sources:

* `src/formats/dorade.rs`  (FormatA reader: HRD run-length decoder, alias
  table, REF thresholding);
* `src/formats/nexrad.rs`  (FormatB reader and writer: sweep-boundary loop,
  scale/offset quantization, radial-status state machine);
* `src/formats/cfradial.rs` (FormatC reader: alias table);
* `src/lib.rs`             (in-memory model, normalizer, volume split driver).

Machine floats (`f32`/`f64`) are embedded as exact rationals `ℚ`: every
arithmetic operation the claims quantify over is affine or a comparison, so
exact arithmetic mirrors the source expressions term for term.  Machine
integers (`u16`, `usize`) are embedded as `ℕ` with explicit bit masks where
the source masks.  A Rust `panic!` (and any `unwrap` that can fail on the
modelled inputs) is embedded as `Option.none`, so a function that can panic
returns `Option`.
-/

namespace Silv

/-! ### FormatA run-length decoder, from `decompress_HRD` in dorade.rs -/

/-- Overwrite the slice of `l` that starts at index `i` with the words `ws`,
mirroring the indexed writes `decomp[decomp_i] = ...` of the source. -/
def setRange (l : List ℕ) (i : ℕ) (ws : List ℕ) : List ℕ :=
  l.take i ++ ws ++ l.drop (i + ws.length)

/-- Loop of `decompress_HRD` (dorade.rs lines 987-1014).  `raw` is the not yet
consumed part of the compressed word stream, `decomp` the output vector
(pre-sized to `ngates` zeros), `di` the output cursor `decomp_i`, and `wc` the
running word count `wcount`.  The source panics when `wcount + nn > ngates`
and when an index runs past the end of `raw`; both panics are `none` here.
`fuel` only bounds the recursion so that it is structural: every iteration of
the source loop consumes at least one word of `raw`, so a caller passing
`fuel = raw.length` (as `decompress_HRD` does) never exhausts it first. -/
def hrdLoop (bad_data ngates : ℕ) :
    (fuel : ℕ) → (raw decomp : List ℕ) → (di wc : ℕ) → Option (List ℕ)
  | 0, _, _, _, _ => none
  | _, [], _, _, _ => none
  | fuel + 1, w :: rest, decomp, di, wc =>
    if w = 1 then some decomp
    else
      let nn := w &&& 0x7fff
      if wc + nn > ngates then none
      else if w &&& 0x8000 > 0 then
        if rest.length < nn then none
        else hrdLoop bad_data ngates fuel (rest.drop nn)
          (setRange decomp di (rest.take nn)) (di + nn) (wc + nn)
      else
        hrdLoop bad_data ngates fuel rest
          (setRange decomp di (List.replicate (nn - 1) bad_data))
          (di + (nn - 1)) (wc + nn)

/-- Embedding of `decompress_HRD` (dorade.rs lines 976-1017): the output is
pre-sized to `ngates` zero words; `none` is the panic of the source
(message `Could not decode`, i.e. CorruptCompressedRay, or an out-of-bounds
index on a truncated stream). -/
def decompress_HRD (raw : List ℕ) (bad_data : ℕ) (ngates : ℕ) :
    Option (List ℕ) :=
  hrdLoop bad_data ngates raw.length raw (List.replicate ngates 0) 0 0

/-- Modelled from the spec (section 4.2), for comparison with
`decompress_HRD`: read control words left to right; bit 15 set copies the
next `n` words verbatim, bit 15 clear emits `n - 1` copies of `bad_data`;
stop at a control word equal to 1; the running total of EMITTED gates must
never exceed `ngates`.  The output is padded to exactly `ngates` words. -/
def specRleLoop (bad_data ngates : ℕ) :
    (fuel : ℕ) → (raw out : List ℕ) → Option (List ℕ)
  | 0, _, _ => none
  | _, [], _ => none
  | fuel + 1, w :: rest, out =>
    if w = 1 then some (out ++ List.replicate (ngates - out.length) 0)
    else
      let nn := w &&& 0x7fff
      if w &&& 0x8000 > 0 then
        if out.length + nn > ngates then none
        else if rest.length < nn then none
        else specRleLoop bad_data ngates fuel (rest.drop nn) (out ++ rest.take nn)
      else
        if out.length + (nn - 1) > ngates then none
        else specRleLoop bad_data ngates fuel rest
          (out ++ List.replicate (nn - 1) bad_data)

/-- Modelled from the spec (section 4.2): the whole run-length decode as the
specification words it. -/
def specRleDecode (raw : List ℕ) (bad_data : ℕ) (ngates : ℕ) :
    Option (List ℕ) :=
  specRleLoop bad_data ngates raw.length raw []

/-! ### Field-name alias tables -/

/-- Embedding of `dorade_to_generic_name` (dorade.rs lines 598-612), the
alias table the FormatA reader applies to every PARM/RDAT/QDAT field name. -/
def dorade_to_generic_name (name : String) : String :=
  if name = "DBZ" ∨ name = "DCZ" ∨ name = "DBZHM" then "REF"
  else if name = "VEL" ∨ name = "VC" then "VEL"
  else if name = "WIDTH" then "SW"
  else if name = "ZDR" then "ZDR"
  else if name = "PHI" then "PHI"
  else if name = "KDP" then "KDP"
  else if name = "RHOHV" then "RHO"
  else name

/-- Embedding of `to_generic_name` (cfradial.rs lines 10-21), the alias table
the FormatC reader applies to every variable name. -/
def to_generic_name (name : String) : String :=
  if name = "DBZ" ∨ name = "DBZHC" ∨ name = "DBZHC_F" then "REF"
  else if name = "VEL" ∨ name = "VEL_F" then "VEL"
  else if name = "WIDTH" then "SW"
  else if name = "RHOHV" ∨ name = "RHOHV_F" then "RHO"
  else if name = "PHIDP" then "PHI"
  else if name = "KDP" then "KDP"
  else if name = "ZDR" ∨ name = "ZDR_F" then "ZDR"
  else name

/-- Names the FormatA alias table actually maps away (never left as keys). -/
def doradeAliases : List String := ["DBZ", "DCZ", "DBZHM", "VC", "WIDTH", "RHOHV"]

/-- Names the FormatC alias table actually maps away (never left as keys). -/
def cfradialAliases : List String :=
  ["DBZ", "DBZHC", "DBZHC_F", "VEL_F", "WIDTH", "RHOHV", "RHOHV_F", "PHIDP", "ZDR_F"]

/-! ### In-memory model, from lib.rs

The claims use the ray azimuth and time, and the sweep elevation, location
and nyquist velocity; the gate-data maps and descriptor strings play no role
in any normalizer or driver claim and are left out of these records. -/

/-- Embedding of `Ray` (lib.rs lines 70-79): scan time (as a UTC millisecond
count) and azimuth. -/
structure Ray where
  time : ℤ
  azimuth : ℚ
deriving DecidableEq, Repr

instance : Inhabited Ray := ⟨⟨0, 0⟩⟩

/-- Embedding of `Sweep` (lib.rs lines 93-114). -/
structure Sweep where
  rays : List Ray := []
  elevation : ℚ := 0
  latitude : ℚ := 0
  longitude : ℚ := 0
  nyquist_velocity : ℚ := 0
deriving DecidableEq, Repr

instance : Inhabited Sweep := ⟨{}⟩

/-- Embedding of `RadarFile` (lib.rs lines 208-217). -/
structure RadarFile where
  name : String
  sweeps : List Sweep
deriving DecidableEq, Repr

def Sweep.nrays (s : Sweep) : ℕ := s.rays.length

def Sweep.azimuths (s : Sweep) : List ℚ := s.rays.map Ray.azimuth

def RadarFile.nsweeps (r : RadarFile) : ℕ := r.sweeps.length

/-! ### Volume normalizer, from lib.rs -/

/-- Exact-arithmetic embedding of `f32::rem_euclid` with modulus `m`: the
least nonnegative representative modulo `m` (for positive `m`). -/
def remEuclid (x m : ℚ) : ℚ := x - m * ⌊x / m⌋

/-- Embedding of `Sweep::correct_azimuth` (lib.rs lines 133-137):
`ray.azimuth = ray.azimuth.rem_euclid(360.0)` for every ray. -/
def Sweep.correct_azimuth (s : Sweep) : Sweep :=
  { s with rays := s.rays.map fun r => { r with azimuth := remEuclid r.azimuth 360 } }

/-- Stable insertion of `a` into `l`, placing `a` after every element `b`
with `le b a`; folding it over a list realizes the unique stable sort for
the total preorder `le`, which is how `Vec::sort_by` (a stable sort) is
embedded. -/
def stableInsert (le : α → α → Bool) (a : α) : List α → List α
  | [] => [a]
  | b :: t => if le b a then b :: stableInsert le a t else a :: b :: t

/-- Stable sort modelling Rust `sort_by`/`sort_by_key` (both stable). -/
def stableSort (le : α → α → Bool) (l : List α) : List α :=
  l.foldl (fun acc a => stableInsert le a acc) []

/-- Embedding of `Sweep::sort_rays_by_azimuth` (lib.rs lines 139-143):
canonicalize, then stably sort the rays by azimuth.  The source comparator
`partial_cmp(..).unwrap()` can only panic on a NaN, which exact rationals do
not have, so the operation is total here. -/
def Sweep.sort_rays_by_azimuth (s : Sweep) : Sweep :=
  let s := s.correct_azimuth
  { s with rays := stableSort (fun a b => decide (a.azimuth ≤ b.azimuth)) s.rays }

/-- Direction pick shared by `trim_rays` (lib.rs lines 150-157) and
`split_overlap_rays` (lines 258-265): the sum of the first five azimuths;
the slice `self.azimuths()[0..5]` panics when the sweep has fewer than five
rays, hence the `Option`. -/
def sweepDirection (s : Sweep) : Option ℚ :=
  if 5 ≤ s.rays.length then
    let dir := (s.azimuths.take 5).sum
    some (if dir > 0 ∨ dir < -300 then 1 else -1)
  else none

/-- One step of the cumulative angular walk (lib.rs lines 163-167 and
273-277): the raw step `az - last`, with a step of magnitude above 300
treated as a wrap and replaced by `360 - |step|`. -/
def angularStep (az last : ℚ) : ℚ :=
  let small := az - last
  if |small| > 300 then 360 - |small| else small

/-- Loop of `Sweep::trim_rays` (lib.rs lines 159-179): the index of the first
ray at which the cumulative directed change reaches 360, if any. -/
def trimCut (direction : ℚ) : List ℚ → ℕ → ℚ → ℚ → Option ℕ
  | [], _, _, _ => none
  | az :: rest, i, change, last =>
    let change := if i = 0 then 0 else change + direction * angularStep az last
    if change ≥ 360 then some i
    else trimCut direction rest (i + 1) change az

/-- Embedding of `Sweep::trim_rays` (lib.rs lines 145-180). -/
def Sweep.trim_rays (s : Sweep) : Option Sweep := do
  let s := s.correct_azimuth
  let direction ← sweepDirection s
  match trimCut direction s.azimuths 0 0 0 with
  | some i => pure { s with rays := s.rays.take i }
  | none => pure s

/-- Loop of `RadarFile::split_overlap_rays` (lib.rs lines 269-293): every
index at which the cumulative directed change reaches 360 (the accumulator
losing 360 at each cut). -/
def splitCuts (direction : ℚ) : List ℚ → ℕ → ℚ → ℚ → List ℕ
  | [], _, _, _ => []
  | az :: rest, i, change, last =>
    let change := if i = 0 then 0 else change + direction * angularStep az last
    if change ≥ 360 then i :: splitCuts direction rest (i + 1) (change - 360) az
    else splitCuts direction rest (i + 1) change az

/-- Consecutive index segments `(ray_idx, i)` delimited by the cut list. -/
def cutSegments : ℕ → List ℕ → List (ℕ × ℕ)
  | _, [] => []
  | start, i :: rest => (start, i) :: cutSegments i rest

/-- Split of one sweep inside `RadarFile::split_overlap_rays` (lib.rs lines
253-301): one copy of the sweep per full 360 of azimuth walked, and the
trailing partial piece only when it has more than 20 rays. -/
def Sweep.split_overlap (s : Sweep) : Option (List Sweep) := do
  let s := s.correct_azimuth
  let direction ← sweepDirection s
  let cuts := splitCuts direction s.azimuths 0 0 0
  let pieces := (cutSegments 0 cuts).map fun p =>
    { s with rays := (s.rays.drop p.1).take (p.2 - p.1) }
  let lastIdx := cuts.getLast?.getD 0
  pure (if s.rays.length - lastIdx > 20
    then pieces ++ [{ s with rays := s.rays.drop lastIdx }] else pieces)

/-- Option-valued map: the whole list succeeds when every element does
(a panic inside a per-sweep loop fails the whole operation). -/
def mapOption (f : α → Option β) : List α → Option (List β)
  | [] => some []
  | a :: t => do
    let b ← f a
    let bs ← mapOption f t
    pure (b :: bs)

/-- Embedding of `RadarFile::trim_rays` (lib.rs lines 243-247). -/
def RadarFile.trim_rays (r : RadarFile) : Option RadarFile := do
  let sweeps ← mapOption Sweep.trim_rays r.sweeps
  pure { r with sweeps }

/-- Embedding of `RadarFile::split_overlap_rays` (lib.rs lines 250-305). -/
def RadarFile.split_overlap_rays (r : RadarFile) : Option RadarFile := do
  let pieces ← mapOption Sweep.split_overlap r.sweeps
  pure { r with sweeps := pieces.flatten }

/-- Embedding of `RadarFile::sort_rays_by_azimuth` (lib.rs lines 226-230). -/
def RadarFile.sort_rays_by_azimuth (r : RadarFile) : RadarFile :=
  { r with sweeps := r.sweeps.map Sweep.sort_rays_by_azimuth }

/-- Embedding of `Sweep::time` (lib.rs lines 117-119): the time of the first
ray; `self.rays[0]` panics on an empty sweep, hence the `Option`. -/
def Sweep.time (s : Sweep) : Option ℤ := s.rays.head?.map Ray.time

/-- Embedding of `RadarFile::sort_sweeps_by_time` (lib.rs lines 233-235),
a stable `sort_by_key` whose key `sweep.time()` panics on an empty sweep. -/
def RadarFile.sort_sweeps_by_time (r : RadarFile) : Option RadarFile :=
  if r.sweeps.all (fun s => !s.rays.isEmpty) then
    some { r with sweeps :=
      (stableSort (fun a b => decide ((a.rays.headI).time ≤ (b.rays.headI).time)) r.sweeps) }
  else none

/-- Embedding of `RadarFile::sort_sweeps_by_elevation` (lib.rs lines
238-240); the `partial_cmp` unwrap can only panic on NaN, absent here. -/
def RadarFile.sort_sweeps_by_elevation (r : RadarFile) : RadarFile :=
  { r with sweeps :=
    stableSort (fun a b => decide (a.elevation ≤ b.elevation)) r.sweeps }

/-! ### Volume split driver, from lib.rs -/

/-- Exact embedding of `f32::signum` (which maps +0.0 to 1.0). -/
def fsignum (x : ℚ) : ℚ := if 0 ≤ x then 1 else -1

/-- Embedding of `vol_mode` (lib.rs lines 421-448).  For three or more
sweeps the source finds the index `ii` of the first elevation within 0.05 of
the minimum; when `ii = len - 2` the guard `ii > len - 2` does not fire and
`sweeps[ii + 2]` panics, hence the `Option`. -/
def vol_mode (r : RadarFile) : Option ℚ :=
  match r.sweeps with
  | [] => some 1
  | [_] => some 1
  | [s0, s1] => some (fsignum (s1.elevation - s0.elevation))
  | _ =>
    let elevs := r.sweeps.map Sweep.elevation
    let min_elev := match elevs with
      | [] => 0
      | e :: rest => rest.foldl (fun e1 e2 => if e1 < e2 then e1 else e2) e
    let ii := elevs.findIdx (fun e => decide (|e - min_elev| < 0.05))
    if ii > r.sweeps.length - 2 then some (-1)
    else if r.sweeps.length ≤ ii + 2 then none
    else if |elevs.getD (ii + 2) 0 - elevs.getD ii 0| < 0.05 then some 1
    else some (fsignum (elevs.getD (ii + 2) 0 - elevs.getD (ii + 1) 0))

/-- Accumulation loop of the `write_volumes` branch of `write` (lib.rs lines
466-486): `vol` is the volume being accumulated, `last` the previous sweep
elevation; a sweep extends the volume when the volume is empty or the
directed change exceeds 0.1, and otherwise the volume is written out and a
new one starts with that sweep.  When the loop ends, whatever `vol` still
holds is NOT written (mirroring the source, where the function simply
returns). -/
def writeVolsLoop (mode : ℚ) : List Sweep → List Sweep → ℚ → List (List Sweep)
  | [], _, _ => []
  | sw :: rest, vol, last =>
    let change := if mode = 1 then sw.elevation - last else last - sw.elevation
    if vol = [] ∨ change > 0.1 then
      writeVolsLoop mode rest (vol ++ [sw]) sw.elevation
    else
      vol :: writeVolsLoop mode rest [sw] sw.elevation

/-- Embedding of the `write_volumes` branch of `write` (lib.rs lines
450-486): sweeps are sorted by time, the direction comes from `vol_mode`,
and the loop emits one written file per flushed volume.  Accessing
`radar.sweeps[0].elevation` panics on an empty volume, hence the final
`Option` bind. -/
def write_volumes (r : RadarFile) : Option (List (List Sweep)) := do
  let r ← r.sort_sweeps_by_time
  let mode ← vol_mode r
  let first ← r.sweeps.head?
  pure (writeVolsLoop mode r.sweeps [] first.elevation)

/-! ### FormatB reader, from nexrad.rs

The byte-level framing (bincode big-endian structs, the 2432-byte slots and
the block-pointer arithmetic) is abstracted: a `NexradMsg` carries the
message type, the Msg31Header fields the claims use, and the contents of the
VOL and RAD blocks its pointer table references, when present. -/

/-- One message slot of the FormatB body. -/
structure NexradMsg where
  f_type : ℕ
  radial_status : ℕ
  azimuth_angle : ℚ
  elevation_angle : ℚ
  vol_latlon : Option (ℚ × ℚ)
  rad_nyquist : Option ℕ
deriving DecidableEq, Repr

/-- Embedding of `RayAttribs` (nexrad.rs lines 169-175), the per-sweep
running sums. -/
structure RayAttribs where
  elev : ℚ := 0
  nyq : ℚ := 0
  lat : ℚ := 0
  lon : ℚ := 0
deriving DecidableEq, Repr

instance : Inhabited RayAttribs := ⟨{}⟩

/-- Accumulation a message performs on `RayAttribs`: `read_ray` adds the
elevation angle (nexrad.rs line 325) and `read_data_block` adds the VOL
latitude/longitude (lines 345-346) and the RAD nyquist velocity in units of
0.01 m/s (line 355) when those blocks are present. -/
def updateAtts (m : NexradMsg) (atts : RayAttribs) : RayAttribs :=
  let atts := { atts with elev := atts.elev + m.elevation_angle }
  let atts := match m.vol_latlon with
    | some ll => { atts with lat := atts.lat + ll.1, lon := atts.lon + ll.2 }
    | none => atts
  match m.rad_nyquist with
  | some n => { atts with nyq := atts.nyq + (n : ℚ) / 100 }
  | none => atts

/-- Whether a ray closes the current sweep (nexrad.rs line 338):
`radial_status == 2 || radial_status == 4`. -/
def closesSweep (m : NexradMsg) : Bool :=
  decide (m.radial_status = 2 ∨ m.radial_status = 4)

/-- Embedding of `read_ray` (nexrad.rs lines 312-339): non-type-31 messages
are skipped (`None`); a type-31 message updates the accumulators and yields
the ray together with the sweep-closing flag.  The ray time is never set by
the source (it stays `Ray::default()`), embedded as 0. -/
def read_ray (m : NexradMsg) (atts : RayAttribs) :
    Option (RayAttribs × Ray × Bool) :=
  if m.f_type ≠ 31 then none
  else some (updateAtts m atts, ⟨0, m.azimuth_angle⟩, closesSweep m)

/-- Sweep finalization at a closing ray (nexrad.rs lines 292-297): every
averaged attribute is the accumulated sum divided by the ray count. -/
def closeSweep (atts : RayAttribs) (rays : List Ray) : Sweep :=
  { rays := rays,
    latitude := atts.lat / rays.length,
    longitude := atts.lon / rays.length,
    nyquist_velocity := atts.nyq / rays.length,
    elevation := atts.elev / rays.length }

/-- Message loop of `read_nexrad` (nexrad.rs lines 287-303): rays accumulate
into the current sweep; a closing ray finalizes and pushes the sweep and
resets the accumulators.  A trailing run of rays never closed is dropped
(the source never pushes the last `sweep` after the loop). -/
def readNexradLoop : List NexradMsg → RayAttribs → List Ray → List Sweep
  | [], _, _ => []
  | m :: rest, atts, rays =>
    match read_ray m atts with
    | none => readNexradLoop rest atts rays
    | some (atts2, ray, endFlag) =>
      let rays := rays ++ [ray]
      if endFlag then closeSweep atts2 rays :: readNexradLoop rest {} []
      else readNexradLoop rest atts2 rays

/-- Embedding of the sweep-building part of `read_nexrad` (nexrad.rs lines
266-310), over the decoded message list. -/
def read_nexrad (msgs : List NexradMsg) : List Sweep :=
  readNexradLoop msgs {} []

/-- Declarative sweep segmentation: the maximal runs of type-31 messages
each ended by a closing ray (radial_status 2 or 4), with a trailing
never-closed run dropped.  `cur` is the run accumulated so far. -/
def closedSegs : List NexradMsg → List NexradMsg → List (List NexradMsg)
  | [], _ => []
  | m :: rest, cur =>
    if m.f_type ≠ 31 then closedSegs rest cur
    else if closesSweep m then (cur ++ [m]) :: closedSegs rest []
    else closedSegs rest (cur ++ [m])

/-- The accumulated attribute sums of a run of messages. -/
def attsOf (seg : List NexradMsg) : RayAttribs :=
  { elev := (seg.map NexradMsg.elevation_angle).sum,
    lat := ((seg.filterMap NexradMsg.vol_latlon).map Prod.fst).sum,
    lon := ((seg.filterMap NexradMsg.vol_latlon).map Prod.snd).sum,
    nyq := ((seg.filterMap NexradMsg.rad_nyquist).map fun n => (n : ℚ) / 100).sum }

/-- The rays of a run of messages. -/
def raysOf (seg : List NexradMsg) : List Ray := seg.map fun m => ⟨0, m.azimuth_angle⟩

/-- The sweep a closed run of messages declaratively determines: its rays,
with every averaged attribute equal to the accumulated per-ray sum divided
by the ray count. -/
def sweepOfSeg (seg : List NexradMsg) : Sweep :=
  { rays := raysOf seg,
    elevation := (attsOf seg).elev / seg.length,
    latitude := (attsOf seg).lat / seg.length,
    longitude := (attsOf seg).lon / seg.length,
    nyquist_velocity := (attsOf seg).nyq / seg.length }

/-! ### FormatB writer, from nexrad.rs -/

/-- Fields of the written `Msg31Header` the claims concern (nexrad.rs lines
519-536). -/
structure Msg31Header where
  azimuth_number : ℕ
  azimuth_angle : ℚ
  radial_status : ℕ
  elevation_number : ℕ
  elevation_angle : ℚ
deriving DecidableEq, Repr

/-- Embedding of `pack_msg_31_header` (nexrad.rs lines 501-544) for ray
`index` of sweep `sweep_index`; the source indexes `radar.sweeps[sweep_index]`
and `sweep.rays[index]`, total on the in-bounds indices the writer loops
over. -/
def pack_msg_31_header (radar : RadarFile) (sweep_index index : ℕ) : Msg31Header :=
  let sweep := radar.sweeps.getD sweep_index default
  let radial_status : ℕ :=
    if index = 0 ∧ sweep_index = 0 then 3
    else if index = sweep.nrays - 1 ∧ sweep_index = radar.nsweeps - 1 then 4
    else if index = 0 then 0
    else if index = sweep.nrays - 1 then 2
    else 1
  { azimuth_number := index + 1,
    azimuth_angle := (sweep.rays.getD index default).azimuth,
    radial_status := radial_status,
    elevation_number := sweep_index + 1,
    elevation_angle := sweep.elevation }

/-! ### FormatB quantization, from nexrad.rs -/

/-- Embedding of `scale_offset` (nexrad.rs lines 123-134); the `panic!` on an
unknown data type is `none`.  The decimal literals are exact here, standing
for the nearest-f32 constants of the source. -/
def scale_offset (data_type : String) : Option (ℚ × ℚ) :=
  if data_type = "REF" then some (2, 66)
  else if data_type = "VEL" then some (2, 129)
  else if data_type = "SW" then some (2, 129.9)
  else if data_type = "ZDR" then some (16, 128)
  else if data_type = "PHI" then some (2.8261, 2)
  else if data_type = "RHO" then some (300, -60.5)
  else if data_type = "CFP" then some (1, 8)
  else none

/-- The `max_val` argument `pack_data` passes to `pack_data_array` (nexrad.rs
lines 593-597): 65535.0 for the 16-bit field PHI, 255.0 for 8-bit fields. -/
def max_val (field : String) : ℚ := if field = "PHI" then 65535 else 255

/-- Exact value of `f64::MIN`, the sentinel the FormatB reader stores for
below-threshold gates. -/
def f64_min : ℚ := -(2 ^ 1024 - 2 ^ 971)

/-- Per-gate quantization of `pack_data_array` (nexrad.rs lines 653-661):
`val = v * scale + offset`; out of range (above `max_val` or below 2)
becomes 0, otherwise the value is cast to the integer word (`as u8`/`as
u16`, truncation toward zero, which on the in-range nonnegative values is
the floor). -/
def pack_gate (scale offset mval v : ℚ) : ℕ :=
  let val := v * scale + offset
  if val > mval ∨ val < 2 then 0 else (⌊val⌋).toNat

/-- Per-gate decode of `read_data_block` (nexrad.rs lines 374-375): a
quantized word below 2 becomes the sentinel `f64::MIN`, otherwise
`(q - offset) / scale`. -/
def read_gate (scale offset : ℚ) (q : ℕ) : ℚ :=
  if q < 2 then f64_min else ((q : ℚ) - offset) / scale

/-- Embedding of the REF thresholding of `load_ray` (dorade.rs lines
909-918): each gate becomes `g * scale + offset`, and a result below
`remove` becomes the sentinel -999.0. -/
def ref_threshold (scale offset remove g : ℚ) : ℚ :=
  let tmp := g * scale + offset
  if tmp < remove then -999 else tmp

/-! ### Concrete inputs used by the claims -/

/-- Five consecutive type-31 messages with radial_status 0, 1, 2, 3, 4
(scenario S3). -/
def exC2 : List NexradMsg :=
  [⟨31, 0, 10, 1, some (35, -97), some 800⟩,
   ⟨31, 1, 20, 2, none, none⟩,
   ⟨31, 2, 30, 3, none, some 400⟩,
   ⟨31, 3, 40, 4, some (35, -97), none⟩,
   ⟨31, 4, 50, 6, none, none⟩]

/-- A volume whose only sweep holds a single ray. -/
def oneRayVolume : RadarFile := ⟨"KTLX", [{ rays := [⟨0, 0⟩], elevation := 1/2 }]⟩

/-- A sweep of five rays at azimuths 10..50 ascending. -/
def fiveRaySweep : Sweep :=
  { rays := [⟨0, 10⟩, ⟨1, 20⟩, ⟨2, 30⟩, ⟨3, 40⟩, ⟨4, 50⟩], elevation := 1/2 }

/-- A volume with one five-ray sweep (azimuths 10..50 ascending). -/
def fiveRayVolume : RadarFile := ⟨"KTLX", [fiveRaySweep]⟩

/-- A volume of two sweeps with two rays each. -/
def twoByTwoVolume : RadarFile :=
  ⟨"KTLX", [{ rays := [⟨0, 10⟩, ⟨1, 20⟩], elevation := 1/2 },
            { rays := [⟨2, 10⟩, ⟨3, 20⟩], elevation := 3/2 }]⟩

/-- Five one-ray sweeps at elevations 0.5, 1.5, 2.5, 0.5, 1.5 (scenario S6),
in time order. -/
def exC5 : RadarFile :=
  ⟨"KTLX", [{ rays := [⟨0, 0⟩], elevation := 1/2 }, { rays := [⟨1, 0⟩], elevation := 3/2 },
            { rays := [⟨2, 0⟩], elevation := 5/2 }, { rays := [⟨3, 0⟩], elevation := 1/2 },
            { rays := [⟨4, 0⟩], elevation := 3/2 }]⟩

/-! ## Theorems -/

/-! ### Alias-table helper lemmas -/

/-- Every name outside the FormatA alias list passes through unchanged. -/
theorem dorade_passthrough (s : String) (h : s ∉ doradeAliases) :
    dorade_to_generic_name s = s := by
  unfold dorade_to_generic_name
  split_ifs with h1 h2 h3 h4 h5 h6 h7 <;> simp_all [doradeAliases]

/-- Every name outside the FormatC alias list passes through unchanged. -/
theorem cfradial_passthrough (s : String) (h : s ∉ cfradialAliases) :
    to_generic_name s = s := by
  unfold to_generic_name
  split_ifs with h1 h2 h3 h4 h5 h6 h7 <;> simp_all [cfradialAliases]

/-- The FormatA name map never outputs one of its own alias names, so a field
map keyed by its outputs never contains an alias. -/
theorem dorade_no_alias_key (s a : String) (ha : a ∈ doradeAliases) :
    dorade_to_generic_name s ≠ a := by
  simp only [doradeAliases, List.mem_cons, List.not_mem_nil, or_false] at ha
  unfold dorade_to_generic_name
  rcases ha with rfl | rfl | rfl | rfl | rfl | rfl <;> split_ifs <;> simp_all

/-- The FormatC name map never outputs one of its own alias names. -/
theorem cfradial_no_alias_key (s a : String) (ha : a ∈ cfradialAliases) :
    to_generic_name s ≠ a := by
  simp only [cfradialAliases, List.mem_cons, List.not_mem_nil, or_false] at ha
  unfold to_generic_name
  rcases ha with rfl | rfl | rfl | rfl | rfl | rfl | rfl | rfl | rfl <;>
    split_ifs <;> simp_all

/-! ### Claim C1 -/

/-- C1: the claim says the S2 stream `[0x0003, 0x8002, A, B, 0x0001]` with
bad_data 0xFFFF and N = 4 decodes successfully to `[0xFFFF, 0xFFFF, A, B]`.
The source decoder instead panics (CorruptCompressedRay, embedded as `none`):
its guard adds the full count `n = 3` of the run word to `wcount` although
the run emits only `n - 1 = 2` gates, so at the literal word it computes
`3 + 2 = 5 > 4` and fails.  The algorithm as the specification words it
(counting emitted gates) decodes the same stream to the claimed output. -/
theorem C1_s2_stream_rejected_by_code :
    decompress_HRD [0x0003, 0x8002, 0x1234, 0x5678, 0x0001] 0xFFFF 4 = none ∧
    specRleDecode [0x0003, 0x8002, 0x1234, 0x5678, 0x0001] 0xFFFF 4 =
      some [0xFFFF, 0xFFFF, 0x1234, 0x5678] := by
  constructor <;> decide

/-! ### Claim C3 -/

/-- C3 counterexample: the claim says the FormatA reader folds `DBZHC` (and
`DBZHC_F`, `VEL_F`, `RHOHV_F`, `ZDR_F`, `PHIDP`) to canonical names, and the
FormatC reader folds `DCZ`, `DBZHM` and `VC`; in the source each of those
names passes through that reader unchanged, so it appears in the field map
as itself, not under the canonical key. -/
theorem C3_alias_counterexample :
    dorade_to_generic_name "DBZHC" = "DBZHC" ∧
    dorade_to_generic_name "VEL_F" = "VEL_F" ∧
    dorade_to_generic_name "PHIDP" = "PHIDP" ∧
    to_generic_name "DCZ" = "DCZ" ∧
    to_generic_name "VC" = "VC" ∧
    ("DBZHC" : String) ≠ "REF" := by
  decide

/-- C3 amended: each reader folds exactly its own alias table — FormatA:
DBZ, DCZ, DBZHM to REF, VC to VEL, WIDTH to SW, RHOHV to RHO; FormatC: DBZ,
DBZHC, DBZHC_F to REF, VEL_F to VEL, WIDTH to SW, RHOHV, RHOHV_F to RHO,
PHIDP to PHI, ZDR_F to ZDR — every other name passes through unchanged, and
no name of the respective alias table ever appears as a stored key. -/
theorem C3_amended_alias_tables :
    (∀ s ∈ (["DBZ", "DCZ", "DBZHM"] : List String), dorade_to_generic_name s = "REF") ∧
    dorade_to_generic_name "VC" = "VEL" ∧
    dorade_to_generic_name "WIDTH" = "SW" ∧
    dorade_to_generic_name "RHOHV" = "RHO" ∧
    (∀ s ∈ (["DBZ", "DBZHC", "DBZHC_F"] : List String), to_generic_name s = "REF") ∧
    to_generic_name "VEL_F" = "VEL" ∧
    to_generic_name "WIDTH" = "SW" ∧
    (∀ s ∈ (["RHOHV", "RHOHV_F"] : List String), to_generic_name s = "RHO") ∧
    to_generic_name "PHIDP" = "PHI" ∧
    to_generic_name "ZDR_F" = "ZDR" ∧
    (∀ s, s ∉ doradeAliases → dorade_to_generic_name s = s) ∧
    (∀ s, s ∉ cfradialAliases → to_generic_name s = s) ∧
    (∀ s a, a ∈ doradeAliases → dorade_to_generic_name s ≠ a) ∧
    (∀ s a, a ∈ cfradialAliases → to_generic_name s ≠ a) := by
  refine ⟨by decide, by decide, by decide, by decide, by decide, by decide,
    by decide, by decide, by decide, by decide,
    dorade_passthrough, cfradial_passthrough, dorade_no_alias_key, cfradial_no_alias_key⟩

/-- C3 witness: the amended theorem applied at the concrete names KDP (not
an alias, passes through FormatA) and DBZ (an alias, never a FormatC key). -/
theorem C3_amended_witness :
    dorade_to_generic_name "KDP" = "KDP" ∧ to_generic_name "DBZ" ≠ "DBZ" := by
  refine ⟨C3_amended_alias_tables.2.2.2.2.2.2.2.2.2.2.1 "KDP" (by decide),
    C3_amended_alias_tables.2.2.2.2.2.2.2.2.2.2.2.2.2 "DBZ" "DBZ" (by decide)⟩

/-! ### Claim C5 -/

/-- C5: sweeps at elevations 0.5, 1.5, 2.5, 0.5, 1.5 under `--vols`.  The
direction comes out +1 and the boundary fires at the fourth sweep exactly as
the claim says, but the source writes only ONE file, `[0.5, 1.5, 2.5]`: the
second volume `[0.5, 1.5]` is still accumulating when the sweep loop ends
and the function returns without flushing it, so the claimed second output
file never exists. -/
theorem C5_trailing_volume_never_written :
    (write_volumes exC5).map (fun vols => vols.map fun v => v.map Sweep.elevation) =
      some [[1/2, 3/2, 5/2]] ∧
    (write_volumes exC5).map List.length ≠ some 2 := by
  constructor <;>
    norm_num [write_volumes, RadarFile.sort_sweeps_by_time, stableSort, stableInsert,
      vol_mode, writeVolsLoop, exC5, fsignum, List.findIdx_cons, Option.bind,
      List.cons_ne_nil]

/-! ### Claim C4 -/

/-- C4 counterexample: the claim says every normalizer operation terminates
normally on every volume, including sweeps of fewer than five rays; but on a
volume whose only sweep has one ray, `trim_rays` and `split_overlap_rays`
both panic (the slice `azimuths()[0..5]` is out of bounds), embedded as
`none`. -/
theorem C4_small_sweep_counterexample :
    oneRayVolume.trim_rays = none ∧ oneRayVolume.split_overlap_rays = none := by
  constructor <;> decide

/-- One sweep with at least five rays always trims without failing. -/
theorem trim_rays_isSome (s : Sweep) (h : 5 ≤ s.rays.length) :
    s.trim_rays.isSome := by
  have hlen : 5 ≤ s.correct_azimuth.rays.length := by
    simpa [Sweep.correct_azimuth] using h
  cases htc : trimCut (if ((s.correct_azimuth.azimuths.take 5).sum > 0 ∨
      (s.correct_azimuth.azimuths.take 5).sum < -300) then 1 else -1)
      s.correct_azimuth.azimuths 0 0 0 <;>
    simp [Sweep.trim_rays, sweepDirection, if_pos hlen, htc]

/-- One sweep with at least five rays always splits without failing. -/
theorem split_overlap_isSome (s : Sweep) (h : 5 ≤ s.rays.length) :
    s.split_overlap.isSome := by
  have hlen : 5 ≤ s.correct_azimuth.rays.length := by
    simpa [Sweep.correct_azimuth] using h
  simp [Sweep.split_overlap, sweepDirection, if_pos hlen]

/-- The option-valued map succeeds when every element does. -/
theorem mapOption_isSome {α β : Type} (f : α → Option β) (l : List α)
    (h : ∀ x ∈ l, (f x).isSome) : (mapOption f l).isSome := by
  induction l with
  | nil => simp [mapOption]
  | cons a t ih =>
    obtain ⟨b, hb⟩ := Option.isSome_iff_exists.mp (h a (by simp))
    obtain ⟨bs, hbs⟩ := Option.isSome_iff_exists.mp
      (ih fun x hx => h x (List.mem_cons_of_mem a hx))
    simp [mapOption, hb, hbs]

/-- C4 amended: azimuth canonicalization and the two sorts are total by
construction (no panic source remains once NaN is excluded), and on every
volume all of whose sweeps hold at least five rays - the amendment the
out-of-bounds slice `azimuths()[0..5]` forces - trimming, overlap splitting
and time sorting also terminate normally. -/
theorem C4_amended_normalizer_total (r : RadarFile)
    (h : ∀ sw ∈ r.sweeps, 5 ≤ sw.rays.length) :
    r.trim_rays.isSome ∧ r.split_overlap_rays.isSome ∧
      r.sort_sweeps_by_time.isSome := by
  refine ⟨?_, ?_, ?_⟩
  · obtain ⟨l, hl⟩ := Option.isSome_iff_exists.mp
      (mapOption_isSome Sweep.trim_rays r.sweeps fun sw hsw => trim_rays_isSome sw (h sw hsw))
    simp [RadarFile.trim_rays, hl]
  · obtain ⟨l, hl⟩ := Option.isSome_iff_exists.mp
      (mapOption_isSome Sweep.split_overlap r.sweeps fun sw hsw =>
        split_overlap_isSome sw (h sw hsw))
    simp [RadarFile.split_overlap_rays, hl]
  · have hall : r.sweeps.all (fun s => !s.rays.isEmpty) = true := by
      rw [List.all_eq_true]
      intro sw hsw
      have hfive := h sw hsw
      cases hr : sw.rays with
      | nil => simp [hr] at hfive
      | cons a t => simp [hr]
    simp [RadarFile.sort_sweeps_by_time, hall]

/-- C4 witness: the amended theorem applied to a volume with one five-ray
sweep. -/
theorem C4_amended_witness :
    fiveRayVolume.trim_rays.isSome ∧ fiveRayVolume.split_overlap_rays.isSome ∧
      fiveRayVolume.sort_sweeps_by_time.isSome :=
  C4_amended_normalizer_total fiveRayVolume (by decide)

/-! ### Claim C10 -/

/-- C10: in a written volume of exactly one sweep with exactly one ray, the
only ray gets radial_status 3 (volume start), the first-ray-of-first-sweep
rule taking precedence over the last-ray-of-last-sweep rule. -/
theorem C10_single_ray_volume_status :
    (pack_msg_31_header oneRayVolume 0 0).radial_status = 3 := by decide

/-! ### Claim C6 -/

/-- C6: the radial_status the FormatB writer assigns to ray `i` of sweep `s`
follows the claimed state machine, read with its first-match precedence:
3 for the first ray of the first sweep; 4 for the last ray of the last sweep
(when not already the first case); 0 for the first ray of any other sweep
(when not the volume end); 2 for the last ray of a sweep other than the
last; 1 otherwise. -/
theorem C6_radial_status_state_machine (radar : RadarFile) (s i : ℕ)
    (hs : s < radar.nsweeps) (hi : i < (radar.sweeps.getD s default).nrays) :
    ((s = 0 ∧ i = 0) → (pack_msg_31_header radar s i).radial_status = 3) ∧
    ((¬(s = 0 ∧ i = 0) ∧ s = radar.nsweeps - 1 ∧
        i = (radar.sweeps.getD s default).nrays - 1) →
      (pack_msg_31_header radar s i).radial_status = 4) ∧
    ((s ≠ 0 ∧ i = 0 ∧ ¬(s = radar.nsweeps - 1 ∧
        i = (radar.sweeps.getD s default).nrays - 1)) →
      (pack_msg_31_header radar s i).radial_status = 0) ∧
    ((i ≠ 0 ∧ i = (radar.sweeps.getD s default).nrays - 1 ∧
        s ≠ radar.nsweeps - 1) →
      (pack_msg_31_header radar s i).radial_status = 2) ∧
    ((i ≠ 0 ∧ i ≠ (radar.sweeps.getD s default).nrays - 1) →
      (pack_msg_31_header radar s i).radial_status = 1) := by
  unfold pack_msg_31_header
  refine ⟨?_, ?_, ?_, ?_, ?_⟩ <;> intro hc <;> simp only [] <;> split_ifs <;> omega

/-- C6 witness: the state machine evaluated on a volume of two two-ray
sweeps, at the last ray of the first sweep (status 2). -/
theorem C6_witness :
    (pack_msg_31_header twoByTwoVolume 0 1).radial_status = 2 :=
  (C6_radial_status_state_machine twoByTwoVolume 0 1 (by decide) (by decide)).2.2.2.1
    (by decide)

/-! ### Claims C7 and C9: quantization -/

/-- The scale/offset table has exactly seven entries. -/
theorem scale_offset_cases (field : String) (p : ℚ × ℚ)
    (h : scale_offset field = some p) :
    p = (2, 66) ∨ p = (2, 129) ∨ p = (2, 129.9) ∨ p = (16, 128) ∨
      p = (2.8261, 2) ∨ p = (300, -60.5) ∨ p = (1, 8) := by
  unfold scale_offset at h
  split_ifs at h <;> simp_all

/-- Every scale in the table is positive. -/
theorem scale_offset_pos (field : String) (p : ℚ × ℚ)
    (h : scale_offset field = some p) : 0 < p.1 := by
  rcases scale_offset_cases field p h with rfl | rfl | rfl | rfl | rfl | rfl | rfl <;>
    norm_num

/-- A gate whose quantized value falls below 2 is written as the on-disk
word 0, whatever the range cap. -/
theorem pack_gate_below (scale offset mval v : ℚ) (h : v * scale + offset < 2) :
    pack_gate scale offset mval v = 0 := by
  unfold pack_gate
  rw [if_pos (Or.inr h)]

/-- C7: for a field of the scale/offset table and a value `v` whose
quantization `v * scale + offset` lands in `[2, max_val]`, decoding the
written word recovers `v` to within `1 / scale`. -/
theorem C7_quantization_roundtrip (field : String) (scale offset v : ℚ)
    (h : scale_offset field = some (scale, offset))
    (h2 : 2 ≤ v * scale + offset) (h3 : v * scale + offset ≤ max_val field) :
    |read_gate scale offset (pack_gate scale offset (max_val field) v) - v| ≤
      1 / scale := by
  have hscale : 0 < scale := scale_offset_pos field (scale, offset) h
  set val := v * scale + offset with hval
  have hpack : pack_gate scale offset (max_val field) v = (⌊val⌋).toNat := by
    unfold pack_gate
    rw [if_neg]
    push_neg
    exact ⟨h3, by linarith⟩
  have hfloor2 : (2 : ℤ) ≤ ⌊val⌋ := by
    rw [Int.le_floor]
    exact_mod_cast h2
  have hcast : ((⌊val⌋.toNat : ℕ) : ℚ) = (⌊val⌋ : ℚ) := by
    exact_mod_cast congrArg Int.cast (Int.toNat_of_nonneg (by omega))
  have hread : read_gate scale offset (⌊val⌋).toNat = ((⌊val⌋ : ℚ) - offset) / scale := by
    unfold read_gate
    rw [if_neg, hcast]
    omega
  rw [hpack, hread]
  have hv : v = (val - offset) / scale := by
    field_simp [hval]
  have hlo : val - 1 < (⌊val⌋ : ℚ) := Int.sub_one_lt_floor val
  have hhi : (⌊val⌋ : ℚ) ≤ val := Int.floor_le val
  rw [hv, div_sub_div_same, abs_div, abs_of_pos hscale]
  have habs : |(⌊val⌋ : ℚ) - val| ≤ 1 := by
    rw [abs_le]
    constructor <;> linarith
  gcongr
  have hsimp : (⌊val⌋ : ℚ) - offset - (val - offset) = (⌊val⌋ : ℚ) - val := by ring
  rw [hsimp]
  exact habs

/-- C7 witness: the round trip applied to field REF at `v = -32`
(quantized word 2, decoded exactly). -/
theorem C7_witness :
    |read_gate 2 66 (pack_gate 2 66 (max_val "REF") (-32)) - (-32)| ≤ 1 / 2 :=
  C7_quantization_roundtrip "REF" 2 66 (-32) (by decide) (by norm_num)
    (by simp only [max_val, if_neg (by decide : ¬("REF" : String) = "PHI")]; norm_num)

/-- C9: for every field of the scale/offset table, both sentinels - the
`f64::MIN` the FormatB reader stores for quantized words 0 and 1, and the
-999.0 the FormatA REF thresholding stores for removed gates - quantize
below 2 and are therefore written as the on-disk word 0. -/
theorem C9_sentinels_quantize_to_zero (field : String) (scale offset : ℚ)
    (h : scale_offset field = some (scale, offset)) :
    read_gate scale offset 0 = f64_min ∧
    read_gate scale offset 1 = f64_min ∧
    (∀ sc off rem g : ℚ, g * sc + off < rem → ref_threshold sc off rem g = -999) ∧
    f64_min * scale + offset < 2 ∧
    (-999 : ℚ) * scale + offset < 2 ∧
    pack_gate scale offset (max_val field) f64_min = 0 ∧
    pack_gate scale offset (max_val field) (-999) = 0 := by
  have hmin : f64_min * scale + offset < 2 ∧ (-999 : ℚ) * scale + offset < 2 := by
    rcases scale_offset_cases field (scale, offset) h with hp | hp | hp | hp | hp | hp | hp <;>
      rw [Prod.mk.injEq] at hp <;> obtain ⟨rfl, rfl⟩ := hp <;>
      constructor <;> norm_num [f64_min]
  refine ⟨by norm_num [read_gate], by norm_num [read_gate],
    fun sc off rem g hg => by simp [ref_threshold, hg],
    hmin.1, hmin.2, pack_gate_below _ _ _ _ hmin.1, pack_gate_below _ _ _ _ hmin.2⟩

/-- C9 witness: the sentinel behavior at field VEL. -/
theorem C9_witness :
    pack_gate 2 129 (max_val "VEL") f64_min = 0 ∧
    pack_gate 2 129 (max_val "VEL") (-999) = 0 :=
  ⟨(C9_sentinels_quantize_to_zero "VEL" 2 129 (by decide)).2.2.2.2.2.1,
   (C9_sentinels_quantize_to_zero "VEL" 2 129 (by decide)).2.2.2.2.2.2⟩

/-! ### Claim C8: azimuth canonicalization and ray sorting -/

/-- The canonical azimuth lies in `[0, 360)`. -/
theorem remEuclid_bounds (x : ℚ) : 0 ≤ remEuclid x 360 ∧ remEuclid x 360 < 360 := by
  unfold remEuclid
  have h1 : (⌊x / 360⌋ : ℚ) ≤ x / 360 := Int.floor_le _
  have h2 : x / 360 < ⌊x / 360⌋ + 1 := Int.lt_floor_add_one _
  constructor <;> linarith

/-- Stable insertion permutes the element onto the list. -/
theorem stableInsert_perm (le : α → α → Bool) (a : α) (l : List α) :
    (stableInsert le a l).Perm (a :: l) := by
  induction l with
  | nil => exact List.Perm.refl _
  | cons b t ih =>
    unfold stableInsert
    by_cases hba : le b a
    · rw [if_pos hba]
      exact (ih.cons b).trans (List.Perm.swap a b t)
    · rw [if_neg hba]

/-- The fold underlying `stableSort` permutes the accumulator and input. -/
theorem stableSort_foldl_perm (le : α → α → Bool) (l : List α) :
    ∀ acc, (l.foldl (fun acc a => stableInsert le a acc) acc).Perm (acc ++ l) := by
  induction l with
  | nil => intro acc; simp
  | cons a t ih =>
    intro acc
    simp only [List.foldl_cons]
    exact (ih (stableInsert le a acc)).trans
      (((stableInsert_perm le a acc).append_right t).trans List.perm_middle.symm)

/-- `stableSort` permutes its input. -/
theorem stableSort_perm (le : α → α → Bool) (l : List α) :
    (stableSort le l).Perm l := by
  simpa using stableSort_foldl_perm le l []

/-- Stable insertion into a sorted list stays sorted, for a transitive and
total comparison. -/
theorem stableInsert_pairwise (le : α → α → Bool)
    (htrans : ∀ a b c, le a b = true → le b c = true → le a c = true)
    (htot : ∀ a b, le a b = true ∨ le b a = true)
    (a : α) (l : List α) (hl : l.Pairwise fun x y => le x y = true) :
    (stableInsert le a l).Pairwise fun x y => le x y = true := by
  induction l with
  | nil => simp [stableInsert]
  | cons b t ih =>
    rcases List.pairwise_cons.mp hl with ⟨hb, ht⟩
    unfold stableInsert
    by_cases hba : le b a
    · rw [if_pos hba]
      refine List.pairwise_cons.mpr ⟨?_, ih ht⟩
      intro x hx
      rcases List.mem_cons.mp ((stableInsert_perm le a t).mem_iff.mp hx) with rfl | hxt
      · exact hba
      · exact hb x hxt
    · rw [if_neg hba]
      have hab : le a b = true := (htot a b).resolve_right (by simpa using hba)
      refine List.pairwise_cons.mpr ⟨?_, hl⟩
      intro x hx
      rcases List.mem_cons.mp hx with rfl | hxt
      · exact hab
      · exact htrans a b x hab (hb x hxt)

/-- `stableSort` sorts, for a transitive and total comparison. -/
theorem stableSort_pairwise (le : α → α → Bool)
    (htrans : ∀ a b c, le a b = true → le b c = true → le a c = true)
    (htot : ∀ a b, le a b = true ∨ le b a = true) (l : List α) :
    (stableSort le l).Pairwise fun x y => le x y = true := by
  suffices h : ∀ acc, acc.Pairwise (fun x y => le x y = true) →
      (l.foldl (fun acc a => stableInsert le a acc) acc).Pairwise
        (fun x y => le x y = true) by
    exact h [] (by simp)
  induction l with
  | nil => intro acc hacc; exact hacc
  | cons a t ih =>
    intro acc hacc
    exact ih _ (stableInsert_pairwise le htrans htot a acc hacc)

/-- C8: after canonicalization every azimuth lies in `[0, 360)`, and after
`sort_rays_by_azimuth` (canonicalize, then stable sort) the azimuth sequence
of every sweep is non-decreasing with every element still in `[0, 360)`. -/
theorem C8_azimuths_canonical_and_sorted (s : Sweep) :
    (∀ r ∈ s.correct_azimuth.rays, 0 ≤ r.azimuth ∧ r.azimuth < 360) ∧
    (∀ r ∈ s.sort_rays_by_azimuth.rays, 0 ≤ r.azimuth ∧ r.azimuth < 360) ∧
    s.sort_rays_by_azimuth.rays.Pairwise fun a b => a.azimuth ≤ b.azimuth := by
  have hcorr : ∀ r ∈ s.correct_azimuth.rays, 0 ≤ r.azimuth ∧ r.azimuth < 360 := by
    intro r hr
    simp only [Sweep.correct_azimuth, List.mem_map] at hr
    obtain ⟨r0, _, rfl⟩ := hr
    exact remEuclid_bounds r0.azimuth
  refine ⟨hcorr, ?_, ?_⟩
  · intro r hr
    apply hcorr
    have hperm := stableSort_perm
      (fun a b : Ray => decide (a.azimuth ≤ b.azimuth)) s.correct_azimuth.rays
    simp only [Sweep.sort_rays_by_azimuth] at hr
    exact hperm.mem_iff.mp hr
  · have hp := stableSort_pairwise (fun a b : Ray => decide (a.azimuth ≤ b.azimuth))
      (fun a b c h1 h2 => decide_eq_true
        (le_trans (of_decide_eq_true h1) (of_decide_eq_true h2)))
      (fun a b => (le_total a.azimuth b.azimuth).imp decide_eq_true decide_eq_true)
      s.correct_azimuth.rays
    simp only [Sweep.sort_rays_by_azimuth]
    exact hp.imp fun h => of_decide_eq_true h

/-- C8 witness: the bounds applied to the canonicalized first ray of the
five-ray sweep. -/
theorem C8_witness :
    0 ≤ (⟨0, remEuclid 10 360⟩ : Ray).azimuth ∧
      (⟨0, remEuclid 10 360⟩ : Ray).azimuth < 360 :=
  (C8_azimuths_canonical_and_sorted fiveRaySweep).1 ⟨0, remEuclid 10 360⟩
    (by simp [fiveRaySweep, Sweep.correct_azimuth])

/-! ### Claim C2: FormatB sweep boundaries -/

/-- The snoc step of the attribute accumulation. -/
theorem attsOf_snoc (cur : List NexradMsg) (m : NexradMsg) :
    updateAtts m (attsOf cur) = attsOf (cur ++ [m]) := by
  unfold updateAtts attsOf
  cases hv : m.vol_latlon <;> cases hn : m.rad_nyquist <;>
    simp [hv, hn, List.filterMap_append, List.map_append, List.sum_append]

/-- The snoc step of the ray accumulation. -/
theorem raysOf_snoc (cur : List NexradMsg) (m : NexradMsg) :
    raysOf (cur ++ [m]) = raysOf cur ++ [⟨0, m.azimuth_angle⟩] := by
  simp [raysOf]

/-- Closing a run produces exactly its declarative sweep. -/
theorem closeSweep_sweepOfSeg (seg : List NexradMsg) :
    closeSweep (attsOf seg) (raysOf seg) = sweepOfSeg seg := by
  simp [closeSweep, sweepOfSeg, raysOf]

/-- The reader loop computes the declarative segmentation: starting from the
accumulators of the currently open run `cur`, it produces one sweep per
closed segment. -/
theorem readLoop_eq_closedSegs (msgs : List NexradMsg) :
    ∀ cur, readNexradLoop msgs (attsOf cur) (raysOf cur) =
      (closedSegs msgs cur).map sweepOfSeg := by
  induction msgs with
  | nil => intro cur; rfl
  | cons m rest ih =>
    intro cur
    by_cases h31 : m.f_type = 31
    · have hread : read_ray m (attsOf cur) =
          some (updateAtts m (attsOf cur), ⟨0, m.azimuth_angle⟩, closesSweep m) := by
        simp [read_ray, h31]
      by_cases hcl : closesSweep m = true
      · have hclose : closeSweep (updateAtts m (attsOf cur))
            (raysOf cur ++ [⟨0, m.azimuth_angle⟩]) = sweepOfSeg (cur ++ [m]) := by
          rw [attsOf_snoc, ← raysOf_snoc, closeSweep_sweepOfSeg]
        simp only [readNexradLoop, hread, hcl, if_true, closedSegs, h31,
          not_true_eq_false, if_false, List.map_cons, hclose]
        exact congrArg _ (ih [])
      · have hncl : closesSweep m = false := by simpa using hcl
        simp only [readNexradLoop, hread, hncl, Bool.false_eq_true, if_false,
          closedSegs, h31, not_true_eq_false]
        rw [attsOf_snoc, ← raysOf_snoc]
        exact ih (cur ++ [m])
    · simp only [readNexradLoop, read_ray, closedSegs, h31, ne_eq,
        not_false_eq_true, if_true]
      exact ih cur

/-- C2: the FormatB reader closes a sweep exactly at a ray whose
radial_status is 2 or 4, each closed sweep carrying the per-ray accumulated
elevation, nyquist, latitude and longitude sums divided by its ray count
(the content of `sweepOfSeg`); and on five consecutive type-31 messages with
radial_status 0, 1, 2, 3, 4 the reader produces exactly two sweeps, of sizes
3 and 2. -/
theorem C2_sweep_boundaries_and_averages :
    (∀ msgs, read_nexrad msgs = (closedSegs msgs []).map sweepOfSeg) ∧
    (read_nexrad exC2).map (fun s => s.rays.length) = [3, 2] := by
  constructor
  · intro msgs
    exact readLoop_eq_closedSegs msgs []
  · decide

end Silv



